import Mathlib

set_option maxRecDepth 8000

/-!
Verification of the retrieval-augmented QA pipeline (`app/ingest.py`,
`app/retriever.py`, `app/qa.py`) against its design specification.

The Python code is shallowly embedded: strings are `List Char`, Python's
arbitrary-precision ints are `Int`/`Nat`, the `while` loop of `chunk_text`
is modelled with an explicit fuel bound (one unit of fuel per loop
iteration; `none` means the loop performs more iterations than the given
fuel, so `∀ fuel, … = none` expresses non-termination), external
collaborators (faiss, SentenceTransformers, the HF pipelines, the file
system) are modelled by explicit inputs describing their observable
behaviour, and fallible Python code (constructors that may `raise`)
returns `Except`.
-/

/-! ### Python slice semantics

`s[a:b]` for a Python string `s` and ints `a`, `b` (step 1): each bound is
clamped into `[0, len]`, negative bounds count from the end. -/

/-- Clamp a Python slice bound into `[0, len]`: a negative index counts
from the end (`max (len + i) 0`), a non-negative one is capped at `len`. -/
def sliceIndex (i : Int) (len : Nat) : Nat :=
  if i < 0 then ((len : Int) + i).toNat else min i.toNat len

/-- Python `s[a:b]` (step 1) on a string modelled as `List Char`. -/
def pySlice (s : List Char) (a b : Int) : List Char :=
  (s.take (sliceIndex b s.length)).drop (sliceIndex a s.length)

/-! ### `chunk_text` (app/ingest.py)

```python
def chunk_text(text: str, chunk_size: int = 800, overlap: int = 100) -> List[str]:
    if not text:
        return []
    text = text.replace("", "")        # identity: replacing "" by "" is a no-op
    chunks = []
    start = 0
    length = len(text)
    while start < length:
        end = min(start + chunk_size, length)
        chunk = text[start:end]
        chunks.append(chunk)
        start += chunk_size - overlap
    return chunks
```
-/

/-- The `while` loop of `chunk_text`, one unit of fuel per iteration.
`start` is an `Int` because `start += chunk_size - overlap` can push it
below zero in Python when `overlap > chunk_size`. -/
def chunkTextAux (chunk_size overlap : Nat) (text : List Char) :
    Nat → Int → List (List Char) → Option (List (List Char))
  | fuel, start, chunks =>
    if start < (text.length : Int) then
      match fuel with
      | 0 => none
      | fuel' + 1 =>
        chunkTextAux chunk_size overlap text fuel'
          (start + (chunk_size : Int) - (overlap : Int))
          (chunks ++ [pySlice text start (min (start + (chunk_size : Int)) (text.length : Int))])
    else some chunks

/-- `chunk_text` from `app/ingest.py`.  `fuel` bounds the number of loop
iterations; `none` reports fuel exhaustion (the loop still running). -/
def chunk_text (fuel : Nat) (text : List Char)
    (chunk_size : Nat := 800) (overlap : Nat := 100) : Option (List (List Char)) :=
  if text = [] then some []
  else chunkTextAux chunk_size overlap text fuel 0 []

/-- Reference description of the chunk windows produced from position
`start` onwards when the loop advances by `step = chunk_size - overlap > 0`
characters per iteration. -/
def chunksFrom (chunk_size step : Nat) (text : List Char) (start : Nat) :
    List (List Char) :=
  if _h : 0 < step ∧ start < text.length then
    ((text.drop start).take chunk_size) :: chunksFrom chunk_size step text (start + step)
  else []
termination_by text.length - start
decreasing_by omega

/-! ### Retriever (app/retriever.py)

The embedding is parametric in the type `V` of embedding vectors and in
the per-text embedding function `encode` (the SentenceTransformers model,
an external collaborator whose contract is one vector per input text).
faiss is modelled by `FaissIndex`: a declared dimension `d` plus the
ordered list of stored vectors (insertion position = faiss id). -/

/-- A faiss index as the retriever observes it: its declared dimension
`d` and its stored vectors in insertion order. -/
structure FaissIndex (V : Type) where
  d : Nat
  vecs : List V
deriving DecidableEq

/-- `faiss.IndexFlatL2(d)`: a fresh empty index of dimension `d`. -/
def IndexFlatL2 (V : Type) (d : Nat) : FaissIndex V :=
  ⟨d, []⟩

/-- `index.add(embeddings)`: appends the batch, keeping insertion
order. -/
def FaissIndex.add {V : Type} (idx : FaissIndex V) (xs : List V) : FaissIndex V :=
  ⟨idx.d, idx.vecs ++ xs⟩

/-- `index.ntotal`: number of stored vectors. -/
def FaissIndex.ntotal {V : Type} (idx : FaissIndex V) : Nat :=
  idx.vecs.length

/-- One entry of `self.metadatas`: the dict `{"text": t, "source": s}`
appended by `add_documents`. -/
structure MetaRecord where
  text : String
  source : String
deriving DecidableEq

/-- The mutable state of a `Retriever` object: `self.dim` (the embedding
model's declared dimension), `self.index`, `self.metadatas`. -/
structure Retriever (V : Type) where
  dim : Nat
  index : FaissIndex V
  metadatas : List MetaRecord
deriving DecidableEq

/-- What `Retriever.__init__`/`_load` can observe of its environment:
whether the faiss import succeeded, and the contents of the two persisted
files.  `none` = file absent; `some none` = file present but unreadable
(`faiss.read_index`/`json.load` raises); `some (some x)` = file present
and parses as `x`. -/
structure LoadEnv (V : Type) where
  faissAvailable : Bool
  indexFile : Option (Option (FaissIndex V))
  metaFile : Option (Option (List MetaRecord))

/-- First step of `_load`: `if os.path.exists(self.index_path) and faiss
is not None: try: self.index = faiss.read_index(...) except: self.index
= None`.  Returns the value of `self.index` after this statement
(initially `None` from `__init__`). -/
def loadIndexFile {V : Type} (avail : Bool) (file : Option (Option (FaissIndex V))) :
    Option (FaissIndex V) :=
  if avail then
    match file with
    | some (some idx) => some idx
    | _ => none
  else none

/-- Second step of `_load`: `if os.path.exists(self.meta_path): try:
self.metadatas = json.load(f) except: self.metadatas = []`.  Returns the
value of `self.metadatas` (initially `[]` from `__init__`). -/
def loadMetaFile (file : Option (Option (List MetaRecord))) : List MetaRecord :=
  match file with
  | some (some m) => m
  | _ => []

/-- `Retriever(index_path, meta_path, model)` construction: `__init__`
records the model's declared dimension and runs `_load`, which raises
`RuntimeError` only when `self.index` is still `None` and faiss is
unavailable; otherwise a still-`None` index is replaced by a fresh
`IndexFlatL2(self.dim)`. -/
def Retriever.load (V : Type) (dim : Nat) (env : LoadEnv V) :
    Except String (Retriever V) :=
  match loadIndexFile env.faissAvailable env.indexFile with
  | some idx => Except.ok ⟨dim, idx, loadMetaFile env.metaFile⟩
  | none =>
    if env.faissAvailable then
      Except.ok ⟨dim, IndexFlatL2 V dim, loadMetaFile env.metaFile⟩
    else Except.error "faiss is required. Please install faiss-cpu or faiss-gpu."

/-- Existence of the two persisted files on disk, as `reset` observes
and mutates it. -/
structure FS where
  indexFileExists : Bool
  metaFileExists : Bool
deriving DecidableEq

/-- `Retriever.reset(remove_files)`: raises when faiss is unavailable,
otherwise replaces the in-memory index and metadata with fresh empty
ones; with `remove_files` it deletes the persisted files, guarding each
removal with `os.path.exists` and swallowing removal errors (a missing
file is not an error). -/
def Retriever.reset {V : Type} (faissAvailable : Bool) (r : Retriever V)
    (remove_files : Bool) (fs : FS) : Except String (Retriever V × FS) :=
  if faissAvailable then
    Except.ok (⟨r.dim, IndexFlatL2 V r.dim, []⟩,
      if remove_files then ⟨false, false⟩ else fs)
  else Except.error "faiss is required to create or reset the index"

/-- `Retriever.add_documents(texts, sources)`: embeds all texts in one
batch (`self.model.encode(texts)` — one vector per text; the
`expand_dims`/`float32` lines are numpy representation fixes with no
effect at this level), appends the batch to the faiss index, and appends
`{"text": t, "source": s}` for `t, s in zip(texts, sources)` to
`self.metadatas`. -/
def Retriever.add_documents {V : Type} (encode : String → V) (r : Retriever V)
    (texts sources : List String) : Retriever V :=
  { r with
    index := r.index.add (texts.map encode),
    metadatas := r.metadatas ++ (texts.zip sources).map (fun p => ⟨p.1, p.2⟩) }

/-- A sequence of `add_documents` calls, applied in order. -/
def addMany {V : Type} (encode : String → V) (r : Retriever V) :
    List (List String × List String) → Retriever V
  | [] => r
  | c :: cs => addMany encode (r.add_documents encode c.1 c.2) cs

/-- One row of `Retriever.search`'s result list:
`{"score": float(score), "text": meta.get("text"), "source":
meta.get("source")}` (both keys are always present in records written by
`add_documents`). -/
structure SearchResult (S : Type) where
  score : S
  text : String
  source : String
deriving DecidableEq

/-- The result-assembly loop of `Retriever.search`: `raw` is
`zip(D[0], I[0])` as returned by the external call
`self.index.search(q_emb, top_k)` (faiss pads missing neighbours with
index `-1`, and a stale persisted index can return positions beyond the
metadata list).  Each position is kept only if it is a valid index into
`self.metadatas`:
`if idx < 0 or idx >= len(self.metadatas): continue`. -/
def Retriever.search {V S : Type} (r : Retriever V) (raw : List (S × Int)) :
    List (SearchResult S) :=
  raw.filterMap fun p =>
    if p.2 < 0 ∨ (r.metadatas.length : Int) ≤ p.2 then none
    else
      match r.metadatas[p.2.toNat]? with
      | some meta => some ⟨p.1, meta.text, meta.source⟩
      | none => none

/-! ### Answer synthesis (app/qa.py) -/

/-- The fixed sentinel answer of the extractive strategy. -/
def robertaFallback : String :=
  "I don’t know, but I can help search for more info."

/-- `answer_with_roberta(question, contexts)`: the call
`roberta_model(question=question, context="\n".join(contexts))` is the
external extractive model; `modelAnswer` and `modelScore` are the
`"answer"` and `"score"` fields of its result (scores modelled as exact
rationals, threshold `0.1 = 1/10`).  The code strips the span, then
normalizes empty-or-low-confidence results to the sentinel:
`if not answer or score < 0.1: answer = "I don’t know, ..."`. -/
def answer_with_roberta (_question : String) (_contexts : List String)
    (modelAnswer : String) (modelScore : Rat) : String :=
  let answer := modelAnswer.trim
  if answer = "" ∨ modelScore < 1 / 10 then robertaFallback else answer

theorem chunksFrom_cons (chunk_size step : Nat) (text : List Char) (start : Nat)
    (hstep : 0 < step) (hlt : start < text.length) :
    chunksFrom chunk_size step text start =
      ((text.drop start).take chunk_size) :: chunksFrom chunk_size step text (start + step) := by
  rw [chunksFrom.eq_def, dif_pos ⟨hstep, hlt⟩]

theorem chunksFrom_nil (chunk_size step : Nat) (text : List Char) (start : Nat)
    (h : ¬ (0 < step ∧ start < text.length)) :
    chunksFrom chunk_size step text start = [] := by
  rw [chunksFrom.eq_def, dif_neg h]

/-! #### Basic facts about the loop -/

theorem pySlice_eq_window (text : List Char) (start chunk_size : Nat)
    (hs : start < text.length) :
    pySlice text (start : Int) (min ((start : Int) + (chunk_size : Int)) ((text.length : Int))) =
      (text.drop start).take chunk_size := by
  have hcast : min ((start : Int) + (chunk_size : Int)) ((text.length : Int)) =
      ((min (start + chunk_size) text.length : Nat) : Int) := by
    push_cast
    rfl
  unfold pySlice sliceIndex
  rw [hcast]
  have h1 : ¬ (((min (start + chunk_size) text.length : Nat) : Int) < 0) := by omega
  have h2 : ¬ ((start : Int) < 0) := by omega
  simp only [h1, h2, if_false, Int.toNat_ofNat, Int.toNat_natCast]
  have hmin : min (min (start + chunk_size) text.length) text.length =
      min (start + chunk_size) text.length := by omega
  have hstart : min start text.length = start := by omega
  rw [hmin, hstart]
  have htake : text.take (min (start + chunk_size) text.length) = text.take (start + chunk_size) := by
    rcases Nat.le_total (start + chunk_size) text.length with h | h
    · rw [Nat.min_eq_left h]
    · rw [Nat.min_eq_right h, List.take_length, List.take_of_length_le h]
  rw [htake, List.drop_take]
  congr 1
  omega

theorem chunkTextAux_spec (chunk_size overlap : Nat) (ho : overlap < chunk_size)
    (text : List Char) :
    ∀ (fuel start : Nat) (acc : List (List Char)),
      text.length ≤ start + fuel * (chunk_size - overlap) →
      chunkTextAux chunk_size overlap text fuel (start : Int) acc =
        some (acc ++ chunksFrom chunk_size (chunk_size - overlap) text start) := by
  intro fuel
  induction fuel with
  | zero =>
    intro start acc hle
    simp only [Nat.zero_mul, Nat.add_zero] at hle
    have hnot : ¬ ((start : Int) < (text.length : Int)) := by
      simp only [not_lt]
      exact_mod_cast hle
    rw [chunkTextAux, if_neg hnot,
      chunksFrom_nil chunk_size (chunk_size - overlap) text start (by omega),
      List.append_nil]
  | succ fuel ih =>
    intro start acc hle
    by_cases hs : start < text.length
    · have hslt : (start : Int) < (text.length : Int) := by exact_mod_cast hs
      rw [chunkTextAux, if_pos hslt]
      have hstep : (start : Int) + (chunk_size : Int) - (overlap : Int) =
          ((start + (chunk_size - overlap) : Nat) : Int) := by
        push_cast [Nat.cast_sub ho.le]
        ring
      rw [hstep, pySlice_eq_window text start chunk_size hs,
        ih (start + (chunk_size - overlap)) _ (by
          have := hle
          rw [Nat.succ_mul] at this
          omega)]
      rw [chunksFrom_cons chunk_size (chunk_size - overlap) text start (by omega) hs,
        List.append_assoc]
      rfl
    · have hnot : ¬ ((start : Int) < (text.length : Int)) := by
        simp only [not_lt]
        exact_mod_cast Nat.le_of_not_lt hs
      rw [chunkTextAux, if_neg hnot,
        chunksFrom_nil chunk_size (chunk_size - overlap) text start (fun h => hs h.2),
        List.append_nil]

/-- With the guard `overlap < chunk_size` and fuel at least the text
length, `chunk_text` terminates and produces exactly the windows of
`chunksFrom`. -/
theorem chunk_text_spec (fuel : Nat) (text : List Char) (chunk_size overlap : Nat)
    (ho : overlap < chunk_size) (hf : text.length ≤ fuel) :
    chunk_text fuel text chunk_size overlap =
      some (chunksFrom chunk_size (chunk_size - overlap) text 0) := by
  unfold chunk_text
  by_cases he : text = []
  · subst he
    rw [if_pos rfl,
      chunksFrom_nil chunk_size (chunk_size - overlap) [] 0 (by simp)]
  · rw [if_neg he]
    have h0 : ((0 : Nat) : Int) = (0 : Int) := rfl
    rw [← h0, chunkTextAux_spec chunk_size overlap ho text fuel 0 []]
    · rw [List.nil_append]
    · have hstep : fuel ≤ fuel * (chunk_size - overlap) :=
        Nat.le_mul_of_pos_right fuel (by omega)
      omega

/-- Windowing identity: the `i`-th window produced from position `start`
is `text[start + i*step : start + i*step + chunk_size]`. -/
theorem chunksFrom_getElem? (chunk_size step : Nat) (hstep : 0 < step)
    (text : List Char) :
    ∀ (i start : Nat),
      (chunksFrom chunk_size step text start)[i]? =
        if start + i * step < text.length then
          some ((text.drop (start + i * step)).take chunk_size)
        else none := by
  intro i
  induction i with
  | zero =>
    intro start
    by_cases hlt : start < text.length
    · rw [chunksFrom_cons chunk_size step text start hstep hlt]
      simp [hlt]
    · rw [chunksFrom_nil chunk_size step text start (fun h => hlt h.2)]
      simp only [List.getElem?_nil, Nat.zero_mul, Nat.add_zero]
      rw [if_neg hlt]
  | succ i ih =>
    intro start
    by_cases hlt : start < text.length
    · rw [chunksFrom_cons chunk_size step text start hstep hlt]
      simp only [List.getElem?_cons_succ]
      rw [ih (start + step)]
      have harith : start + step + i * step = start + (i + 1) * step := by ring
      rw [harith]
    · rw [chunksFrom_nil chunk_size step text start (fun h => hlt h.2)]
      simp only [List.getElem?_nil]
      rw [if_neg (by omega)]

/-- If the text is non-empty the window list is non-empty. -/
theorem chunksFrom_ne_nil (chunk_size step : Nat) (hstep : 0 < step)
    (text : List Char) (hne : text ≠ []) :
    chunksFrom chunk_size step text 0 ≠ [] := by
  have hlen : 0 < text.length := List.length_pos.mpr hne
  rw [chunksFrom_cons chunk_size step text 0 hstep hlen]
  exact List.cons_ne_nil _ _

/-- If `overlap ≥ chunk_size` the loop's cursor never advances past the
end of a non-empty text, so no amount of fuel makes it stop: the Python
loop runs forever. -/
theorem chunkTextAux_stuck (chunk_size overlap : Nat) (ho : chunk_size ≤ overlap)
    (text : List Char) :
    ∀ (fuel : Nat) (start : Int) (acc : List (List Char)),
      start < (text.length : Int) →
      chunkTextAux chunk_size overlap text fuel start acc = none := by
  intro fuel
  induction fuel with
  | zero =>
    intro start acc hlt
    rw [chunkTextAux, if_pos hlt]
  | succ fuel ih =>
    intro start acc hlt
    rw [chunkTextAux, if_pos hlt]
    exact ih _ _ (by omega)

/-- Exactly-two-windows case: when the text overflows a single window but
the second window already reaches the end of the text, `chunk_text`
produces the whole text followed by its last `len - (chunk_size - overlap)`
characters. -/
theorem chunk_text_two_chunks (fuel : Nat) (text : List Char)
    (chunk_size overlap : Nat) (ho : overlap < chunk_size)
    (h1 : chunk_size - overlap < text.length) (h2 : text.length ≤ chunk_size)
    (h3 : text.length ≤ 2 * (chunk_size - overlap)) (hf : text.length ≤ fuel) :
    chunk_text fuel text chunk_size overlap =
      some [text, text.drop (chunk_size - overlap)] := by
  rw [chunk_text_spec fuel text chunk_size overlap ho hf]
  rw [chunksFrom_cons chunk_size (chunk_size - overlap) text 0 (by omega) (by omega)]
  rw [chunksFrom_cons chunk_size (chunk_size - overlap) text (0 + (chunk_size - overlap))
    (by omega) (by omega)]
  rw [chunksFrom_nil chunk_size (chunk_size - overlap) text
    (0 + (chunk_size - overlap) + (chunk_size - overlap)) (by omega)]
  rw [List.drop_zero, List.take_of_length_le h2]
  have : (text.drop (0 + (chunk_size - overlap))).take chunk_size =
      text.drop (chunk_size - overlap) := by
    rw [Nat.zero_add]
    exact List.take_of_length_le (by simp; omega)
  rw [this]

/-- Three-windows case, showing that the text can fit in a single window
(`len ≤ chunk_size`) and still produce more than two chunks when the
overlap exceeds half the chunk size. -/
theorem chunk_text_three_chunks (fuel : Nat) (text : List Char)
    (chunk_size overlap : Nat) (ho : overlap < chunk_size)
    (h1 : 2 * (chunk_size - overlap) < text.length) (h2 : text.length ≤ chunk_size)
    (h3 : text.length ≤ 3 * (chunk_size - overlap)) (hf : text.length ≤ fuel) :
    chunk_text fuel text chunk_size overlap =
      some [text, text.drop (chunk_size - overlap), text.drop (2 * (chunk_size - overlap))] := by
  rw [chunk_text_spec fuel text chunk_size overlap ho hf]
  rw [chunksFrom_cons chunk_size (chunk_size - overlap) text 0 (by omega) (by omega)]
  rw [chunksFrom_cons chunk_size (chunk_size - overlap) text (0 + (chunk_size - overlap))
    (by omega) (by omega)]
  rw [chunksFrom_cons chunk_size (chunk_size - overlap) text
    (0 + (chunk_size - overlap) + (chunk_size - overlap)) (by omega) (by omega)]
  rw [chunksFrom_nil chunk_size (chunk_size - overlap) text
    (0 + (chunk_size - overlap) + (chunk_size - overlap) + (chunk_size - overlap)) (by omega)]
  rw [List.drop_zero, List.take_of_length_le h2]
  have e1 : (text.drop (0 + (chunk_size - overlap))).take chunk_size =
      text.drop (chunk_size - overlap) := by
    rw [Nat.zero_add]
    exact List.take_of_length_le (by simp; omega)
  have e2 : (text.drop (0 + (chunk_size - overlap) + (chunk_size - overlap))).take chunk_size =
      text.drop (2 * (chunk_size - overlap)) := by
    rw [Nat.zero_add, ← Nat.two_mul]
    exact List.take_of_length_le (by simp; omega)
  rw [e1, e2]

/-! ### Claim theorems for the chunker -/

/-- C2 — the claim says `chunk_text` fails with a fatal configuration
error when `overlap >= chunk_size` instead of looping forever.  The code
has no such guard: on the concrete call `chunk_text("ab", chunk_size=1,
overlap=1)` the cursor advances by `1 - 1 = 0` characters per iteration,
so no fuel bound suffices — the Python `while` loop never terminates and
no error is ever raised. -/
theorem chunk_text_overlap_ge_chunk_size_diverges :
    ∀ fuel : Nat, chunk_text fuel ['a', 'b'] 1 1 = none := by
  intro fuel
  unfold chunk_text
  rw [if_neg (by decide)]
  exact chunkTextAux_stuck 1 1 (Nat.le_refl 1) ['a', 'b'] fuel 0 [] (by decide)

/-- C9 — determinism of the chunker: `chunk_text` is a pure function of
`(text, chunk_size, overlap)`; in the embedding this also means the
result does not depend on the fuel bound, as long as the fuel covers the
loop (any fuel at least `len(text)` suffices, and when the loop diverges
every fuel yields `none`). -/
theorem chunk_text_deterministic (text : List Char) (chunk_size overlap f₁ f₂ : Nat)
    (h₁ : text.length ≤ f₁) (h₂ : text.length ≤ f₂) :
    chunk_text f₁ text chunk_size overlap = chunk_text f₂ text chunk_size overlap := by
  by_cases he : text = []
  · subst he
    rfl
  · by_cases ho : overlap < chunk_size
    · rw [chunk_text_spec f₁ text chunk_size overlap ho h₁,
        chunk_text_spec f₂ text chunk_size overlap ho h₂]
    · have hlen : (0 : Int) < (text.length : Int) := by
        have := List.length_pos.mpr he
        omega
      unfold chunk_text
      rw [if_neg he, if_neg he,
        chunkTextAux_stuck chunk_size overlap (by omega) text f₁ 0 [] hlen,
        chunkTextAux_stuck chunk_size overlap (by omega) text f₂ 0 [] hlen]

theorem chunk_text_deterministic_witness :
    (['a', 'b'] : List Char).length ≤ 2 ∧ (['a', 'b'] : List Char).length ≤ 3 ∧
    chunk_text 2 ['a', 'b'] 2 1 = chunk_text 3 ['a', 'b'] 2 1 :=
  ⟨by decide, by decide,
    chunk_text_deterministic ['a', 'b'] 2 1 2 3 (by decide) (by decide)⟩

/-- C7 (amended) — windowing correctness: for `overlap < chunk_size` and
non-empty text, chunk `i` is `text[i*step : i*step + chunk_size]` with
`step = chunk_size - overlap`; chunk `i` has length
`min chunk_size (len - i*step)`; and a full-size chunk shares exactly
`overlap` characters with its successor at the boundary.  (The original
claim's final conjunct — that only the final chunk may be shorter than
`chunk_size` — is false; see the counterexample.) -/
theorem chunk_text_windowing (chunk_size overlap fuel : Nat) (text : List Char)
    (ho : overlap < chunk_size) (hne : text ≠ []) (hf : text.length ≤ fuel) :
    ∃ L, chunk_text fuel text chunk_size overlap = some L ∧ L ≠ [] ∧
      (∀ i : Nat, L[i]? =
        if i * (chunk_size - overlap) < text.length then
          some ((text.drop (i * (chunk_size - overlap))).take chunk_size)
        else none) ∧
      (∀ i : Nat, ∀ ch, L[i]? = some ch →
        ch.length = min chunk_size (text.length - i * (chunk_size - overlap))) ∧
      (∀ i : Nat, ∀ ch ch', L[i]? = some ch → L[i + 1]? = some ch' →
        ch.length = chunk_size →
        ch.drop (chunk_size - overlap) = ch'.take overlap ∧
        (ch.drop (chunk_size - overlap)).length = overlap) := by
  have hstep : 0 < chunk_size - overlap := by omega
  refine ⟨chunksFrom chunk_size (chunk_size - overlap) text 0,
    chunk_text_spec fuel text chunk_size overlap ho hf,
    chunksFrom_ne_nil chunk_size (chunk_size - overlap) hstep text hne, ?_, ?_, ?_⟩
  · intro i
    rw [chunksFrom_getElem? chunk_size (chunk_size - overlap) hstep text i 0]
    simp only [Nat.zero_add]
  · intro i ch hch
    rw [chunksFrom_getElem? chunk_size (chunk_size - overlap) hstep text i 0] at hch
    simp only [Nat.zero_add] at hch
    by_cases hi : i * (chunk_size - overlap) < text.length
    · rw [if_pos hi] at hch
      cases hch
      simp
    · rw [if_neg hi] at hch
      cases hch
  · intro i ch ch' hch hch' hfull
    rw [chunksFrom_getElem? chunk_size (chunk_size - overlap) hstep text i 0] at hch
    rw [chunksFrom_getElem? chunk_size (chunk_size - overlap) hstep text (i + 1) 0] at hch'
    simp only [Nat.zero_add] at hch hch'
    by_cases hi : i * (chunk_size - overlap) < text.length
    · rw [if_pos hi] at hch
      by_cases hi' : (i + 1) * (chunk_size - overlap) < text.length
      · rw [if_pos hi'] at hch'
        cases hch
        cases hch'
        constructor
        · rw [List.drop_take, List.drop_drop, List.take_take]
          have e1 : chunk_size - (chunk_size - overlap) = overlap := by omega
          have e2 : i * (chunk_size - overlap) + (chunk_size - overlap) =
              (i + 1) * (chunk_size - overlap) := by ring
          have e3 : min overlap chunk_size = overlap := by omega
          rw [e1, e2, e3]
        · rw [List.length_drop, hfull]
          omega
      · rw [if_neg hi'] at hch'
        cases hch'
    · rw [if_neg hi] at hch
      cases hch

theorem chunk_text_windowing_witness :
    (1 < 3) ∧ (['a', 'b', 'c', 'd', 'e', 'f'] : List Char) ≠ [] ∧
    (['a', 'b', 'c', 'd', 'e', 'f'] : List Char).length ≤ 6 ∧
    (∃ L, chunk_text 6 ['a', 'b', 'c', 'd', 'e', 'f'] 3 1 = some L ∧ L ≠ [] ∧
      (∀ i : Nat, L[i]? =
        if i * (3 - 1) < (['a', 'b', 'c', 'd', 'e', 'f'] : List Char).length then
          some (((['a', 'b', 'c', 'd', 'e', 'f'] : List Char).drop (i * (3 - 1))).take 3)
        else none) ∧
      (∀ i : Nat, ∀ ch, L[i]? = some ch →
        ch.length = min 3 ((['a', 'b', 'c', 'd', 'e', 'f'] : List Char).length - i * (3 - 1))) ∧
      (∀ i : Nat, ∀ ch ch', L[i]? = some ch → L[i + 1]? = some ch' →
        ch.length = 3 →
        ch.drop (3 - 1) = ch'.take 1 ∧ (ch.drop (3 - 1)).length = 1)) :=
  ⟨by decide, by decide, by decide,
    chunk_text_windowing 3 1 6 ['a', 'b', 'c', 'd', 'e', 'f']
      (by decide) (by decide) (by decide)⟩

/-- C7 (counterexample) — "only the final chunk may be shorter than
chunk_size" is false at the defaults: a 750-character text yields two
chunks, and the first (non-final) one has length 750 < 800. -/
theorem chunk_text_short_nonfinal_chunk :
    chunk_text 750 (List.replicate 750 'a') 800 100 =
      some [List.replicate 750 'a', (List.replicate 750 'a').drop 700] ∧
    (List.replicate 750 'a').length = 750 ∧
    ((List.replicate 750 'a').drop 700).length = 50 ∧
    ¬ (∀ (L : List (List Char)) (i : Nat) (ch : List Char),
        chunk_text 750 (List.replicate 750 'a') 800 100 = some L →
        L[i]? = some ch → i + 1 < L.length → ch.length = 800) := by
  have h2 : chunk_text 750 (List.replicate 750 'a') 800 100 =
      some [List.replicate 750 'a', (List.replicate 750 'a').drop 700] := by
    have := chunk_text_two_chunks 750 (List.replicate 750 'a') 800 100
      (by omega) (by simp) (by simp) (by simp) (by simp)
    simpa using this
  refine ⟨h2, by simp, by simp, ?_⟩
  intro hall
  have := hall [List.replicate 750 'a', (List.replicate 750 'a').drop 700]
    0 (List.replicate 750 'a') h2 (by simp) (by simp)
  simp at this

/-- C10 (amended) — when `chunk_size - overlap < len(text) ≤ chunk_size`
and additionally `len(text) ≤ 2*(chunk_size - overlap)` (which holds
throughout the range 701–800 at the defaults 800/100), `chunk_text`
returns exactly two chunks: the whole text followed by its last
`len - (chunk_size - overlap)` characters, a suffix of the first chunk.
(Without the extra bound the window can be revisited more than twice; see
the counterexample.) -/
theorem chunk_text_single_window_two_chunks (fuel chunk_size overlap : Nat)
    (text : List Char) (ho : overlap < chunk_size)
    (h1 : chunk_size - overlap < text.length) (h2 : text.length ≤ chunk_size)
    (h3 : text.length ≤ 2 * (chunk_size - overlap)) (hf : text.length ≤ fuel) :
    chunk_text fuel text chunk_size overlap =
      some [text, text.drop (chunk_size - overlap)] ∧
    (text.drop (chunk_size - overlap)).length = text.length - (chunk_size - overlap) ∧
    List.IsSuffix (text.drop (chunk_size - overlap)) text :=
  ⟨chunk_text_two_chunks fuel text chunk_size overlap ho h1 h2 h3 hf,
    List.length_drop _ _,
    ⟨text.take (chunk_size - overlap), List.take_append_drop _ _⟩⟩

theorem chunk_text_single_window_two_chunks_witness :
    (2 < 5) ∧ (5 - 2 < (['a', 'b', 'c', 'd'] : List Char).length) ∧
    ((['a', 'b', 'c', 'd'] : List Char).length ≤ 5) ∧
    ((['a', 'b', 'c', 'd'] : List Char).length ≤ 2 * (5 - 2)) ∧
    (chunk_text 4 ['a', 'b', 'c', 'd'] 5 2 =
      some [['a', 'b', 'c', 'd'], (['a', 'b', 'c', 'd'] : List Char).drop (5 - 2)] ∧
    ((['a', 'b', 'c', 'd'] : List Char).drop (5 - 2)).length =
      (['a', 'b', 'c', 'd'] : List Char).length - (5 - 2) ∧
    List.IsSuffix ((['a', 'b', 'c', 'd'] : List Char).drop (5 - 2)) ['a', 'b', 'c', 'd']) :=
  ⟨by decide, by decide, by decide, by decide,
    chunk_text_single_window_two_chunks 4 5 2 ['a', 'b', 'c', 'd']
      (by decide) (by decide) (by decide) (by decide) (by decide)⟩

/-- C10 (counterexample) — the claim's two-chunk statement fails for
parameters satisfying its stated hypothesis `chunk_size - overlap <
len(text) ≤ chunk_size`: with `chunk_size = 800`, `overlap = 600` and a
500-character text, `chunk_text` returns three chunks, not two. -/
theorem chunk_text_single_window_three_chunks :
    (800 - 600 < (List.replicate 500 'a').length ∧
      (List.replicate 500 'a').length ≤ 800) ∧
    chunk_text 500 (List.replicate 500 'a') 800 600 =
      some [List.replicate 500 'a', (List.replicate 500 'a').drop 200,
        (List.replicate 500 'a').drop 400] ∧
    ([List.replicate 500 'a', (List.replicate 500 'a').drop 200,
      (List.replicate 500 'a').drop 400] : List (List Char)).length ≠ 2 := by
  refine ⟨⟨by simp, by simp⟩, ?_, by simp⟩
  have := chunk_text_three_chunks 500 (List.replicate 500 'a') 800 600
    (by omega) (by simp) (by simp) (by simp) (by simp)
  simpa using this

/-! ### Helper lemmas for the retriever -/

theorem add_documents_ntotal {V : Type} (encode : String → V) (r : Retriever V)
    (texts sources : List String) :
    (r.add_documents encode texts sources).index.ntotal =
      r.index.ntotal + texts.length := by
  simp [Retriever.add_documents, FaissIndex.add, FaissIndex.ntotal]

theorem add_documents_metadatas_length {V : Type} (encode : String → V)
    (r : Retriever V) (texts sources : List String) :
    (r.add_documents encode texts sources).metadatas.length =
      r.metadatas.length + min texts.length sources.length := by
  simp [Retriever.add_documents, List.length_zip]

theorem addMany_lockstep {V : Type} (encode : String → V) :
    ∀ (calls : List (List String × List String)) (r : Retriever V),
      r.index.ntotal = r.metadatas.length →
      (∀ p ∈ calls, (p : List String × List String).1.length = p.2.length) →
      (addMany encode r calls).index.ntotal = (addMany encode r calls).metadatas.length := by
  intro calls
  induction calls with
  | nil =>
    intro r h0 _
    exact h0
  | cons c cs ih =>
    intro r h0 hc
    have hhead : c.1.length = c.2.length := hc c (List.mem_cons_self c cs)
    have hnext : (r.add_documents encode c.1 c.2).index.ntotal =
        (r.add_documents encode c.1 c.2).metadatas.length := by
      rw [add_documents_ntotal, add_documents_metadatas_length, h0, hhead,
        Nat.min_self]
    exact ih (r.add_documents encode c.1 c.2) hnext
      (fun p hp => hc p (List.mem_cons_of_mem c hp))

theorem search_nil_of_metadatas_nil {V S : Type} (r : Retriever V)
    (hm : r.metadatas = []) (raw : List (S × Int)) :
    Retriever.search r raw = [] := by
  unfold Retriever.search
  rw [List.filterMap_eq_nil_iff]
  intro p _
  have hcond : p.2 < 0 ∨ (r.metadatas.length : Int) ≤ p.2 := by
    rw [hm]
    simp only [List.length_nil, Nat.cast_zero]
    omega
  rw [if_pos hcond]

/-! ### Claim theorems for the retriever and answer synthesis -/

/-- C1 (counterexample) — the claim says a loaded index whose dimension
differs from the embedding provider's declared dimension is replaced by a
fresh empty index.  The code performs no dimension check: constructing
with declared dimension 3 while the persisted index file holds a readable
index of dimension 5 (with one stored vector) keeps that index as-is. -/
theorem retriever_load_keeps_mismatched_index :
    Retriever.load Unit 3 ⟨true, some (some ⟨5, [()]⟩), none⟩ =
      Except.ok ⟨3, ⟨5, [()]⟩, []⟩ ∧
    (⟨5, [()]⟩ : FaissIndex Unit).d ≠ 3 ∧
    (⟨5, [()]⟩ : FaissIndex Unit) ≠ IndexFlatL2 Unit 3 := by
  refine ⟨rfl, by decide, ?_⟩
  intro h
  have : (5 : Nat) = 3 := congrArg FaissIndex.d h
  omega

/-- C1 (amended) — fail-open construction: construction raises exactly
when faiss is unavailable; when faiss is available and the index file is
absent or unreadable, a fresh empty `IndexFlatL2(dim)` is silently
created (and corrupt/missing metadata degrades to `[]`); a readable
persisted index is kept even when its dimension differs from the
declared one (no dimension check is performed — see the
counterexample). -/
theorem retriever_load_fail_open (V : Type) (dim : Nat) (env : LoadEnv V) :
    ((env.faissAvailable = false) ↔ ∃ msg, Retriever.load V dim env = Except.error msg) ∧
    (env.faissAvailable = true →
      (env.indexFile = none ∨ env.indexFile = some none) →
      Retriever.load V dim env =
        Except.ok ⟨dim, IndexFlatL2 V dim, loadMetaFile env.metaFile⟩) ∧
    (env.faissAvailable = true → ∃ r, Retriever.load V dim env = Except.ok r) := by
  obtain ⟨avail, idxf, metaf⟩ := env
  cases avail with
  | false =>
    refine ⟨⟨fun _ => ⟨_, rfl⟩, fun _ => rfl⟩, ?_, ?_⟩ <;>
      · intro h
        simp at h
  | true =>
    rcases idxf with _ | idxo
    · refine ⟨⟨?_, ?_⟩, fun _ _ => rfl, fun _ => ⟨_, rfl⟩⟩
      · intro h
        simp at h
      · rintro ⟨msg, hmsg⟩
        simp [Retriever.load, loadIndexFile] at hmsg
    · rcases idxo with _ | idx
      · refine ⟨⟨?_, ?_⟩, fun _ _ => rfl, fun _ => ⟨_, rfl⟩⟩
        · intro h
          simp at h
        · rintro ⟨msg, hmsg⟩
          simp [Retriever.load, loadIndexFile] at hmsg
      · refine ⟨⟨?_, ?_⟩, ?_, fun _ => ⟨_, rfl⟩⟩
        · intro h
          simp at h
        · rintro ⟨msg, hmsg⟩
          simp [Retriever.load, loadIndexFile] at hmsg
        · intro _ h
          rcases h with h | h <;> simp at h

theorem retriever_load_fail_open_witness :
    ((⟨true, none, none⟩ : LoadEnv Unit).faissAvailable = true) ∧
    Retriever.load Unit 3 ⟨true, none, none⟩ =
      Except.ok ⟨3, IndexFlatL2 Unit 3, []⟩ :=
  ⟨rfl, (retriever_load_fail_open Unit 3 ⟨true, none, none⟩).2.1 rfl (Or.inl rfl)⟩

/-- C3 — index/metadata lockstep: starting from a state where
`index.ntotal == len(metadatas)`, any sequence of `add_documents` calls
with `len(texts) == len(sources)` preserves the equality; within one
call, the embedding of `texts[i]` and the record
`{"text": texts[i], "source": sources[i]}` are appended at the same
position `i` past the old end, in order; and `reset` clears the index
and the metadata together in the same call. -/
theorem add_documents_lockstep {V : Type} (encode : String → V) (r : Retriever V)
    (calls : List (List String × List String))
    (texts sources : List String) (i : Nat) (t s : String)
    (remove_files : Bool) (fs : FS)
    (h0 : r.index.ntotal = r.metadatas.length)
    (hcalls : ∀ p ∈ calls, (p : List String × List String).1.length = p.2.length)
    (_hlen : texts.length = sources.length)
    (ht : texts[i]? = some t) (hs : sources[i]? = some s) :
    (addMany encode r calls).index.ntotal = (addMany encode r calls).metadatas.length ∧
    ((r.add_documents encode texts sources).index.vecs)[r.index.ntotal + i]? =
      some (encode t) ∧
    ((r.add_documents encode texts sources).metadatas)[r.metadatas.length + i]? =
      some ⟨t, s⟩ ∧
    Retriever.reset true r remove_files fs =
      Except.ok (⟨r.dim, IndexFlatL2 V r.dim, []⟩,
        if remove_files then ⟨false, false⟩ else fs) := by
  refine ⟨addMany_lockstep encode calls r h0 hcalls, ?_, ?_, rfl⟩
  · show (r.index.vecs ++ texts.map encode)[r.index.ntotal + i]? = some (encode t)
    rw [List.getElem?_append_right (by
      simp only [FaissIndex.ntotal]
      omega)]
    simp only [FaissIndex.ntotal, Nat.add_sub_cancel_left, List.getElem?_map, ht,
      Option.map_some']
  · show (r.metadatas ++ (texts.zip sources).map (fun p => MetaRecord.mk p.1 p.2))[r.metadatas.length + i]? =
      some ⟨t, s⟩
    rw [List.getElem?_append_right (by omega)]
    have hzip : (texts.zip sources)[i]? = some (t, s) :=
      List.getElem?_zip_eq_some.mpr ⟨ht, hs⟩
    simp only [Nat.add_sub_cancel_left, List.getElem?_map, hzip, Option.map_some']

theorem add_documents_lockstep_witness :
    (addMany (fun _ => ()) (⟨2, ⟨2, []⟩, []⟩ : Retriever Unit)
        [(["a"], ["s"])]).index.ntotal =
      (addMany (fun _ => ()) (⟨2, ⟨2, []⟩, []⟩ : Retriever Unit)
        [(["a"], ["s"])]).metadatas.length ∧
    ((Retriever.add_documents (fun _ => ()) (⟨2, ⟨2, []⟩, []⟩ : Retriever Unit)
        ["a", "b"] ["s", "t"]).index.vecs)[1]? = some () ∧
    ((Retriever.add_documents (fun _ => ()) (⟨2, ⟨2, []⟩, []⟩ : Retriever Unit)
        ["a", "b"] ["s", "t"]).metadatas)[1]? = some ⟨"b", "t"⟩ ∧
    Retriever.reset true (⟨2, ⟨2, []⟩, []⟩ : Retriever Unit) true ⟨true, true⟩ =
      Except.ok (⟨2, IndexFlatL2 Unit 2, []⟩,
        if true then ⟨false, false⟩ else ⟨true, true⟩) :=
  add_documents_lockstep (fun _ => ()) ⟨2, ⟨2, []⟩, []⟩ [(["a"], ["s"])]
    ["a", "b"] ["s", "t"] 1 "b" "t" true ⟨true, true⟩
    rfl (by simp) rfl rfl rfl

/-- C4 — the `len(texts) == len(sources)` precondition of
`add_documents` is never checked: a call with more texts than sources
raises no error, appends one vector per text to the index but only one
metadata record per `zip(texts, sources)` pair (zip truncates to the
shorter list), so the index ends strictly larger than the metadata
store and the lockstep invariant is silently broken. -/
theorem add_documents_zip_truncates {V : Type} (encode : String → V)
    (r : Retriever V) (texts sources : List String)
    (hlt : sources.length < texts.length)
    (h0 : r.index.ntotal = r.metadatas.length) :
    (r.add_documents encode texts sources).index.ntotal =
      r.index.ntotal + texts.length ∧
    (r.add_documents encode texts sources).metadatas.length =
      r.metadatas.length + sources.length ∧
    (r.add_documents encode texts sources).metadatas.length <
      (r.add_documents encode texts sources).index.ntotal := by
  have h1 := add_documents_ntotal encode r texts sources
  have h2 := add_documents_metadatas_length encode r texts sources
  refine ⟨h1, ?_, ?_⟩
  · rw [h2, Nat.min_eq_right hlt.le]
  · rw [h1, h2, Nat.min_eq_right hlt.le]
    omega

theorem add_documents_zip_truncates_witness :
    ((["s"] : List String).length < (["a", "b"] : List String).length) ∧
    ((Retriever.add_documents (fun _ => ()) (⟨3, ⟨3, []⟩, []⟩ : Retriever Unit)
        ["a", "b"] ["s"]).index.ntotal = 0 + 2 ∧
     (Retriever.add_documents (fun _ => ()) (⟨3, ⟨3, []⟩, []⟩ : Retriever Unit)
        ["a", "b"] ["s"]).metadatas.length = 0 + 1 ∧
     (Retriever.add_documents (fun _ => ()) (⟨3, ⟨3, []⟩, []⟩ : Retriever Unit)
        ["a", "b"] ["s"]).metadatas.length <
       (Retriever.add_documents (fun _ => ()) (⟨3, ⟨3, []⟩, []⟩ : Retriever Unit)
        ["a", "b"] ["s"]).index.ntotal) :=
  ⟨by decide,
    add_documents_zip_truncates (fun _ => ()) ⟨3, ⟨3, []⟩, []⟩ ["a", "b"] ["s"]
      (by decide) rfl⟩

/-- C5 — `reset` is idempotent: a second `reset` with the same
`remove_files` flag returns exactly the state the first one produced —
an empty in-memory index and metadata store (`size 0`), and, when
`remove_files` is true, both persisted files absent; the second call
succeeds even though the files it would remove are already gone (the
removal is guarded by `os.path.exists`). -/
theorem reset_idempotent {V : Type} (r : Retriever V) (remove_files : Bool) (fs : FS) :
    Retriever.reset true r remove_files fs =
      Except.ok (⟨r.dim, IndexFlatL2 V r.dim, []⟩,
        if remove_files then ⟨false, false⟩ else fs) ∧
    Retriever.reset true (⟨r.dim, IndexFlatL2 V r.dim, []⟩ : Retriever V) remove_files
        (if remove_files then ⟨false, false⟩ else fs) =
      Except.ok (⟨r.dim, IndexFlatL2 V r.dim, []⟩,
        if remove_files then ⟨false, false⟩ else fs) ∧
    (⟨r.dim, IndexFlatL2 V r.dim, []⟩ : Retriever V).index.ntotal = 0 ∧
    (⟨r.dim, IndexFlatL2 V r.dim, []⟩ : Retriever V).metadatas.length = 0 ∧
    (remove_files = true →
      (if remove_files then (⟨false, false⟩ : FS) else fs).indexFileExists = false ∧
      (if remove_files then (⟨false, false⟩ : FS) else fs).metaFileExists = false) := by
  cases remove_files with
  | false =>
    refine ⟨rfl, rfl, rfl, rfl, ?_⟩
    intro h
    simp at h
  | true => exact ⟨rfl, rfl, rfl, rfl, fun _ => ⟨rfl, rfl⟩⟩

theorem reset_idempotent_witness :
    Retriever.reset true (⟨1, ⟨1, [()]⟩, [⟨"t", "s"⟩]⟩ : Retriever Unit) true ⟨true, true⟩ =
      Except.ok (⟨1, IndexFlatL2 Unit 1, []⟩, if true then ⟨false, false⟩ else ⟨true, true⟩) ∧
    Retriever.reset true (⟨1, IndexFlatL2 Unit 1, []⟩ : Retriever Unit) true
        (if true then ⟨false, false⟩ else ⟨true, true⟩) =
      Except.ok (⟨1, IndexFlatL2 Unit 1, []⟩, if true then ⟨false, false⟩ else ⟨true, true⟩) ∧
    (⟨1, IndexFlatL2 Unit 1, []⟩ : Retriever Unit).index.ntotal = 0 ∧
    (⟨1, IndexFlatL2 Unit 1, []⟩ : Retriever Unit).metadatas.length = 0 ∧
    ((if true then (⟨false, false⟩ : FS) else ⟨true, true⟩).indexFileExists = false ∧
      (if true then (⟨false, false⟩ : FS) else ⟨true, true⟩).metaFileExists = false) :=
  ⟨(reset_idempotent ⟨1, ⟨1, [()]⟩, [⟨"t", "s"⟩]⟩ true ⟨true, true⟩).1,
    (reset_idempotent (⟨1, ⟨1, [()]⟩, [⟨"t", "s"⟩]⟩ : Retriever Unit) true ⟨true, true⟩).2.1,
    (reset_idempotent (⟨1, ⟨1, [()]⟩, [⟨"t", "s"⟩]⟩ : Retriever Unit) true ⟨true, true⟩).2.2.1,
    (reset_idempotent (⟨1, ⟨1, [()]⟩, [⟨"t", "s"⟩]⟩ : Retriever Unit) true ⟨true, true⟩).2.2.2.1,
    (reset_idempotent (⟨1, ⟨1, [()]⟩, [⟨"t", "s"⟩]⟩ : Retriever Unit) true ⟨true, true⟩).2.2.2.2 rfl⟩

/-- C6 — `search` never fails on stale or missing metadata: every
returned result is built from a valid position of the metadata store
(negative or out-of-range positions from the raw faiss output are
silently skipped per-result); a retriever with empty metadata — in
particular a freshly constructed, never-populated one — returns the
empty result list for every raw output, never an error. -/
theorem search_skips_stale_positions {V S : Type} (r r' r₀ : Retriever V)
    (raw raw' raw₀ : List (S × Int)) (res : SearchResult S) (dim : Nat)
    (hres : res ∈ Retriever.search r raw)
    (hempty : r'.metadatas = [])
    (hload : Retriever.load V dim ⟨true, none, none⟩ = Except.ok r₀) :
    (∃ i : Nat, ∃ hi : i < r.metadatas.length,
      res.text = (r.metadatas.get ⟨i, hi⟩).text ∧
      res.source = (r.metadatas.get ⟨i, hi⟩).source) ∧
    Retriever.search r' raw' = [] ∧
    r₀.metadatas = [] ∧ Retriever.search r₀ raw₀ = [] := by
  have hr0 : r₀ = ⟨dim, IndexFlatL2 V dim, []⟩ := by
    have : Except.ok (ε := String) (⟨dim, IndexFlatL2 V dim, []⟩ : Retriever V) =
        Except.ok r₀ := hload
    cases this
    rfl
  have hr0m : r₀.metadatas = [] := by
    rw [hr0]
  refine ⟨?_, search_nil_of_metadatas_nil r' hempty raw',
    hr0m, search_nil_of_metadatas_nil r₀ hr0m raw₀⟩
  unfold Retriever.search at hres
  rw [List.mem_filterMap] at hres
  obtain ⟨p, _, hp⟩ := hres
  by_cases hcond : p.2 < 0 ∨ (r.metadatas.length : Int) ≤ p.2
  · rw [if_pos hcond] at hp
    cases hp
  · rw [if_neg hcond] at hp
    push_neg at hcond
    have hidx : p.2.toNat < r.metadatas.length := by omega
    rcases hmeta : r.metadatas[p.2.toNat]? with _ | meta
    · rw [hmeta] at hp
      cases hp
    · rw [hmeta] at hp
      cases hp
      have hget : r.metadatas.get ⟨p.2.toNat, hidx⟩ = meta := by
        have := List.getElem?_eq_some_iff.mp hmeta
        obtain ⟨h', hv⟩ := this
        simpa using hv
      exact ⟨p.2.toNat, hidx, by rw [hget], by rw [hget]⟩

theorem search_skips_stale_positions_witness :
    (∃ i : Nat,
      ∃ hi : i < (⟨1, ⟨1, [()]⟩, [⟨"t", "s"⟩]⟩ : Retriever Unit).metadatas.length,
      (⟨(0 : Int), "t", "s"⟩ : SearchResult Int).text =
        ((⟨1, ⟨1, [()]⟩, [⟨"t", "s"⟩]⟩ : Retriever Unit).metadatas.get ⟨i, hi⟩).text ∧
      (⟨(0 : Int), "t", "s"⟩ : SearchResult Int).source =
        ((⟨1, ⟨1, [()]⟩, [⟨"t", "s"⟩]⟩ : Retriever Unit).metadatas.get ⟨i, hi⟩).source) ∧
    Retriever.search (⟨1, ⟨1, []⟩, []⟩ : Retriever Unit) [((0 : Int), (3 : Int))] = [] ∧
    (⟨7, ⟨7, []⟩, []⟩ : Retriever Unit).metadatas = [] ∧
    Retriever.search (⟨7, ⟨7, []⟩, []⟩ : Retriever Unit) [((0 : Int), (-1 : Int))] = [] :=
  search_skips_stale_positions ⟨1, ⟨1, [()]⟩, [⟨"t", "s"⟩]⟩ ⟨1, ⟨1, []⟩, []⟩
    ⟨7, ⟨7, []⟩, []⟩ [((0 : Int), (0 : Int))] [((0 : Int), (3 : Int))]
    [((0 : Int), (-1 : Int))] ⟨(0 : Int), "t", "s"⟩ 7 (by decide) rfl rfl

/-- C8 — extractive answer normalization: whenever the extractive
model's span is empty after stripping, or its confidence score is below
the fixed threshold `0.1`, `answer_with_roberta` returns the fixed
sentinel answer instead of the span; the condition is absorbed into a
normal return value, never raised as an error. -/
theorem answer_with_roberta_low_confidence (question : String)
    (contexts : List String) (modelAnswer : String) (modelScore : Rat)
    (h : modelAnswer.trim = "" ∨ modelScore < 1 / 10) :
    answer_with_roberta question contexts modelAnswer modelScore = robertaFallback := by
  show (if modelAnswer.trim = "" ∨ modelScore < 1 / 10
    then robertaFallback else modelAnswer.trim) = robertaFallback
  rw [if_pos h]

theorem answer_with_roberta_low_confidence_witness :
    ((0 : Rat) < 1 / 10) ∧
    answer_with_roberta "q" [] "x" 0 = robertaFallback :=
  ⟨by norm_num,
    answer_with_roberta_low_confidence "q" [] "x" 0 (Or.inr (by norm_num))⟩
